import Mathlib

/-!
Shallow embedding of the per-student environment and task orchestration
engine of `nsp2grading/cli.py`, together with proofs of its specified
properties.

Modelling conventions:
* filesystem paths are lists of path segments (`List String`);
* the conda registry is the list of environment names (or, for
  `get_all_environments`, the list of environment directory paths that
  `conda env list --json` reports);
* external subprocess outcomes are supplied by Boolean oracles
  (`true` = the subprocess exits non-zero and raises
  `CalledProcessError`);
* batch commands return the trace of external calls they issued, in
  order, so that fail-fast versus continue-on-error policies are visible
  in the result;
* Python exceptions become constructors of explicit error types
  (`Except`-style results).
-/

/-- The fixed naming scheme `make_env_name`: `f"env_{student}"`. -/
def make_env_name (student : String) : String :=
  "env_" ++ student

/-- `Path.name` of a path given as a list of segments. -/
def path_name (p : List String) : String :=
  p.getLastD ""

/-- `Path.parent.name` of a path given as a list of segments. -/
def path_parent_name (p : List String) : String :=
  p.dropLast.getLastD ""

/-- `get_all_environments`: from the environment paths reported by
`conda env list --json`, keep those whose parent directory is named
`envs` and return their basenames. -/
def get_all_environments (env_paths : List (List String)) : List String :=
  (env_paths.filter (fun p => path_parent_name p == "envs")).map path_name

/-- `list_environments` (the `env list` command): for each student of the
roster, in roster order, print the student's environment name when that
environment exists.  The returned list is the list of printed names. -/
def list_environments (students : List String) (environments : List String) :
    List String :=
  students.filterMap (fun s =>
    if make_env_name s ∈ environments then some (make_env_name s) else none)

/-- `RE_STUDENT_NAME = "(?P<name>[a-z]+)_"` applied with `re.match`:
the match succeeds iff the filename starts with a non-empty run of
lowercase ASCII letters immediately followed by `_`; the captured group
is that run of letters. -/
def re_student_name (s : String) : Option String :=
  let cs := s.toList
  let letters := cs.takeWhile (fun c => decide ('a' ≤ c ∧ c ≤ 'z'))
  if letters ≠ [] ∧ cs[letters.length]? = some '_' then
    some (String.mk letters)
  else none

/-- A submitted archive: its filename and the relative paths of the files
it contains. -/
structure Zip where
  name : String
  contents : List String
deriving DecidableEq

/-- The directories and files currently on disk. -/
structure FS where
  dirs : List (List String)
  files : List (List String)
deriving DecidableEq

/-- `Path.mkdir(exist_ok=True)`. -/
def mkdir_exist_ok (fs : FS) (d : List String) : FS :=
  if d ∈ fs.dirs then fs else { fs with dirs := fs.dirs ++ [d] }

/-- Processing of one archive by the unpack loop once its student name has
been recovered: skip it when `code_dir/<student>` is already a directory,
otherwise `mkdir` that directory and extract the archive into it. -/
def unpack_step (code_dir : List String) (fs : FS) (z : Zip) (student : String) :
    FS :=
  let student_dir := code_dir ++ [student]
  if student_dir ∈ fs.dirs then fs
  else
    { dirs := fs.dirs ++ [student_dir]
      files := fs.files ++ z.contents.map (fun f => student_dir ++ [f]) }

/-- Outcome of the unpack command: either the loop ran to completion, or a
filename did not match `RE_STUDENT_NAME`, `re.match` returned `None`, and
`.group("name")` raised `AttributeError`; either way the filesystem state
reached at that point is recorded. -/
inductive UnpackResult where
  | ok (fs : FS)
  | crashed (fs : FS)
deriving DecidableEq

/-- The filesystem state carried by an `UnpackResult`. -/
def fsOf : UnpackResult → FS
  | .ok fs => fs
  | .crashed fs => fs

/-- The loop of `uncompress_submissions` over the globbed archives. -/
def unpack_loop (code_dir : List String) : FS → List Zip → UnpackResult
  | fs, [] => .ok fs
  | fs, z :: rest =>
    match re_student_name z.name with
    | none => .crashed fs
    | some student => unpack_loop code_dir (unpack_step code_dir fs z student) rest

/-- The `unpack` command: `code_dir.mkdir(exist_ok=True)` followed by the
loop over the archives found in the submissions directory. -/
def uncompress_submissions (code_dir : List String) (submissions : List Zip)
    (fs : FS) : UnpackResult :=
  unpack_loop code_dir (mkdir_exist_ok fs code_dir) submissions

/-- Error raised by `get_students` when the code directory is missing:
`Path.iterdir` raises `FileNotFoundError`. -/
inductive RosterError where
  | fileNotFound
deriving DecidableEq

/-- `get_students`: names of the immediate subdirectories of the code
directory, sorted; `FileNotFoundError` when the code directory does not
exist. -/
def get_students (fs : FS) (code_dir : List String) :
    Except RosterError (List String) :=
  if code_dir ∈ fs.dirs then
    .ok (List.insertionSort (fun a b : String => a ≤ b)
      ((fs.dirs.filter (fun d =>
          d.length == code_dir.length + 1 && code_dir.isPrefixOf d)).map
        (fun d => d.getD code_dir.length "")))
  else .error .fileNotFound

/-- The kinds of external subprocess invocations issued by the batch
environment commands. -/
inductive Cmd where
  | condaCreate
  | condaRemove
  | poetryInstall
  | warmImport
deriving DecidableEq

/-- One external subprocess invocation: which command, for which student,
and whether it exited successfully. -/
structure Call where
  cmd : Cmd
  student : String
  ok : Bool
deriving DecidableEq

/-- The loop of the `env create` command.  `environments` is the snapshot
taken by `get_all_environments` before the loop; `st` is the live conda
registry, which gains the new name on every successful create.  On a
`CalledProcessError` the loop prints the error and `break`s, so nothing
after the failing student runs. -/
def create_loop (environments : List String) (force : Bool)
    (createFails : String → Bool) :
    List String → List String → List Call × List String
  | st, [] => ([], st)
  | st, s :: rest =>
    let env_name := make_env_name s
    if env_name ∉ environments ∨ force = true then
      if createFails s then ([⟨.condaCreate, s, false⟩], st)
      else
        let r := create_loop environments force createFails (st ++ [env_name]) rest
        (⟨.condaCreate, s, true⟩ :: r.1, r.2)
    else create_loop environments force createFails st rest

/-- The `env create` command: query the registry once, then run the
creation loop against that snapshot.  Returns the call trace and the
final registry. -/
def create_environments (force : Bool) (createFails : String → Bool)
    (st : List String) (students : List String) : List Call × List String :=
  create_loop st force createFails st students

/-- The `env remove` command.  On a `CalledProcessError` the loop prints
the error and `continue`s with the next student. -/
def remove_environments (environments : List String)
    (removeFails : String → Bool) : List String → List Call
  | [] => []
  | s :: rest =>
    let env_name := make_env_name s
    if env_name ∈ environments then
      ⟨.condaRemove, s, !removeFails s⟩ :: remove_environments environments removeFails rest
    else remove_environments environments removeFails rest

/-- The `env install` command.  `fp` models `find_pyproject_toml`.  When
the manifest is missing the student is reported and skipped; when
`poetry install` fails the loop `continue`s; otherwise the warm-import
pass runs and a failure there also `continue`s. -/
def install_environments (environments : List String)
    (fp : String → Option (List String))
    (installFails importFails : String → Bool) : List String → List Call
  | [] => []
  | s :: rest =>
    let env_name := make_env_name s
    if env_name ∈ environments then
      match fp s with
      | none => install_environments environments fp installFails importFails rest
      | some _ =>
        if installFails s then
          ⟨.poetryInstall, s, false⟩ ::
            install_environments environments fp installFails importFails rest
        else
          ⟨.poetryInstall, s, true⟩ :: ⟨.warmImport, s, !importFails s⟩ ::
            install_environments environments fp installFails importFails rest
    else install_environments environments fp installFails importFails rest

/-- Errors of `shell start`: `students[0]` on an empty roster raises
`IndexError`; `find_pyproject_toml(...).parent` on a `None` result raises
`AttributeError`. -/
inductive StartError where
  | indexError
  | attributeError
deriving DecidableEq

/-- `start_grading` (the `shell start` command): jump to the first
student's project directory and activate that student's environment. -/
def start_grading (students : List String)
    (fp : String → Option (List String)) :
    Except StartError (List String × String) :=
  match students with
  | [] => .error .indexError
  | first :: _ =>
    match fp first with
    | none => .error .attributeError
    | some project_path => .ok (project_path.dropLast, make_env_name first)

/-- Errors of `shell next`.  `notInSession` is the spec's name for the
exceptions raised while recovering the current student (`ValueError` from
`Path.relative_to`, `IndexError` from `parts[0]`, `ValueError` from
`list.index`); `attributeError` is raised when `find_pyproject_toml`
returns `None`. -/
inductive NavError where
  | notInSession
  | attributeError
deriving DecidableEq

/-- Python's `list.index` as a total function: position of the first
occurrence, `none` when absent (where Python raises `ValueError`). -/
def pyIndex (a : String) : List String → Option Nat
  | [] => none
  | x :: xs => if x = a then some 0 else (pyIndex a xs).map (· + 1)

/-- `grade_next_student` (the `shell next` command): recover the current
student from the working directory relative to the code directory, find
the next roster entry cyclically and emit its project directory and
environment name. -/
def grade_next_student (code_dir cwd : List String) (students : List String)
    (fp : String → Option (List String)) :
    Except NavError (List String × String) :=
  if code_dir.isPrefixOf cwd then
    match (cwd.drop code_dir.length).head? with
    | none => .error .notInSession
    | some current_student =>
      match pyIndex current_student students with
      | none => .error .notInSession
      | some idx =>
        let next_student := students.getD ((idx + 1) % students.length) ""
        match fp next_student with
        | none => .error .attributeError
        | some project_path => .ok (project_path.dropLast, make_env_name next_student)
  else .error .notInSession

/-! ### List helpers -/

theorem isPrefixOf_iff : ∀ (l₁ l₂ : List String),
    l₁.isPrefixOf l₂ = true ↔ ∃ t, l₂ = l₁ ++ t
  | [], l₂ => by simp [List.isPrefixOf]
  | a :: as, [] => by simp [List.isPrefixOf]
  | a :: as, b :: bs => by
    simp only [List.isPrefixOf, Bool.and_eq_true, beq_iff_eq]
    constructor
    · rintro ⟨rfl, h⟩
      obtain ⟨t, rfl⟩ := (isPrefixOf_iff as bs).mp h
      exact ⟨t, rfl⟩
    · rintro ⟨t, ht⟩
      cases ht
      exact ⟨rfl, (isPrefixOf_iff as (as ++ t)).mpr ⟨t, rfl⟩⟩

theorem getD_append_singleton : ∀ (l : List String) (x : String),
    (l ++ [x]).getD l.length "" = x
  | [], _ => rfl
  | _ :: as, x => getD_append_singleton as x

theorem getD_mem (l : List String) (i : Nat) (h : i < l.length) :
    l.getD i "" ∈ l := by
  rw [List.getD_eq_getElem l "" h]
  exact l.getElem_mem h

theorem pyIndex_eq_none (a : String) : ∀ (l : List String), a ∉ l →
    pyIndex a l = none
  | [], _ => rfl
  | x :: xs, h => by
    have hx : ¬x = a := fun hxa => h (hxa ▸ List.mem_cons_self x xs)
    simp only [pyIndex, if_neg hx, pyIndex_eq_none a xs (fun hm => h (List.mem_cons_of_mem x hm)),
      Option.map_none']

theorem pyIndex_getD : ∀ (l : List String) (i : Nat), i < l.length → l.Nodup →
    pyIndex (l.getD i "") l = some i
  | [], i, hi, _ => absurd hi (by simp)
  | x :: xs, 0, _, _ => by simp [pyIndex]
  | x :: xs, i + 1, hi, hnd => by
    have hi' : i < xs.length := by simpa using hi
    have hmem : xs.getD i "" ∈ xs := getD_mem xs i hi'
    have hx : ¬x = xs.getD i "" := by
      intro hxa
      exact (List.nodup_cons.mp hnd).1 (hxa ▸ hmem)
    have hrec := pyIndex_getD xs i hi' (List.nodup_cons.mp hnd).2
    simp only [List.getD_cons_succ, pyIndex, if_neg hx, hrec, Option.map_some']

/-! ### Unpack lemmas -/

theorem mkdir_mem_self (fs : FS) (d : List String) :
    d ∈ (mkdir_exist_ok fs d).dirs := by
  unfold mkdir_exist_ok
  split
  · assumption
  · simp

theorem mkdir_of_mem (fs : FS) (d : List String) (h : d ∈ fs.dirs) :
    mkdir_exist_ok fs d = fs := by
  unfold mkdir_exist_ok
  exact if_pos h

theorem unpack_step_mem_dirs (code_dir : List String) (fs : FS) (z : Zip)
    (s : String) (d : List String) (h : d ∈ fs.dirs) :
    d ∈ (unpack_step code_dir fs z s).dirs := by
  by_cases hmem : code_dir ++ [s] ∈ fs.dirs
  · simpa [unpack_step, hmem] using h
  · simp [unpack_step, hmem, h]

theorem unpack_step_creates (code_dir : List String) (fs : FS) (z : Zip)
    (s : String) : code_dir ++ [s] ∈ (unpack_step code_dir fs z s).dirs := by
  by_cases hmem : code_dir ++ [s] ∈ fs.dirs
  · simp [unpack_step, hmem]
  · simp [unpack_step, hmem]

theorem unpack_loop_mem_dirs (code_dir : List String) :
    ∀ (subs : List Zip) (fs : FS) (d : List String), d ∈ fs.dirs →
      d ∈ (fsOf (unpack_loop code_dir fs subs)).dirs
  | [], fs, d, h => h
  | z :: rest, fs, d, h => by
    unfold unpack_loop
    match hre : re_student_name z.name with
    | none => exact h
    | some s =>
      exact unpack_loop_mem_dirs code_dir rest _ d
        (unpack_step_mem_dirs code_dir fs z s d h)

theorem unpack_loop_ok_mem (code_dir : List String) (subs : List Zip)
    (fs fs' : FS) (h : unpack_loop code_dir fs subs = .ok fs')
    (d : List String) (hd : d ∈ fs.dirs) : d ∈ fs'.dirs := by
  have := unpack_loop_mem_dirs code_dir subs fs d hd
  rw [h] at this
  exact this

theorem unpack_loop_covers (code_dir : List String) :
    ∀ (subs : List Zip) (fs fs' : FS),
      unpack_loop code_dir fs subs = .ok fs' →
      ∀ z ∈ subs, ∃ s, re_student_name z.name = some s ∧ code_dir ++ [s] ∈ fs'.dirs
  | [], fs, fs', _, z, hz => absurd hz (by simp)
  | z₀ :: rest, fs, fs', h, z, hz => by
    revert h
    unfold unpack_loop
    match hre : re_student_name z₀.name with
    | none => intro h; exact absurd h (by simp)
    | some s₀ =>
      intro h
      rcases List.mem_cons.mp hz with rfl | hz'
      · refine ⟨s₀, hre, ?_⟩
        exact unpack_loop_ok_mem code_dir rest _ fs' h _
          (unpack_step_creates code_dir fs z s₀)
      · exact unpack_loop_covers code_dir rest _ fs' h z hz'

theorem unpack_loop_all_skipped (code_dir : List String) :
    ∀ (subs : List Zip) (fs : FS),
      (∀ z ∈ subs, ∃ s, re_student_name z.name = some s ∧ code_dir ++ [s] ∈ fs.dirs) →
      unpack_loop code_dir fs subs = .ok fs
  | [], fs, _ => rfl
  | z :: rest, fs, h => by
    obtain ⟨s, hre, hmem⟩ := h z (List.mem_cons_self z rest)
    unfold unpack_loop
    rw [hre]
    have hstep : unpack_step code_dir fs z s = fs := by
      unfold unpack_step
      exact if_pos hmem
    show unpack_loop code_dir (unpack_step code_dir fs z s) rest = .ok fs
    rw [hstep]
    exact unpack_loop_all_skipped code_dir rest fs
      (fun z' hz' => h z' (List.mem_cons_of_mem z hz'))

theorem unpack_crash_at (code_dir : List String) :
    ∀ (l₁ : List Zip) (fs : FS) (l₂ : List Zip) (bad : Zip),
      (∀ z ∈ l₁, (re_student_name z.name).isSome) →
      re_student_name bad.name = none →
      ∃ fsc, unpack_loop code_dir fs l₁ = .ok fsc ∧
        unpack_loop code_dir fs (l₁ ++ bad :: l₂) = .crashed fsc
  | [], fs, l₂, bad, _, hbad => by
    refine ⟨fs, rfl, ?_⟩
    simp only [List.nil_append]
    unfold unpack_loop
    rw [hbad]
  | z :: zs, fs, l₂, bad, h, hbad => by
    have hz := h z (List.mem_cons_self z zs)
    obtain ⟨s, hs⟩ := Option.isSome_iff_exists.mp hz
    obtain ⟨fsc, h1, h2⟩ := unpack_crash_at code_dir zs (unpack_step code_dir fs z s) l₂ bad
      (fun z' hz' => h z' (List.mem_cons_of_mem z hz')) hbad
    refine ⟨fsc, ?_, ?_⟩
    · unfold unpack_loop
      rw [hs]
      exact h1
    · simp only [List.cons_append]
      unfold unpack_loop
      rw [hs]
      exact h2

/-! ### Lifecycle batch lemmas -/

theorem create_loop_all_ok (cf : String → Bool) :
    ∀ (l st : List String), (∀ s ∈ l, cf s = false) →
      create_loop [] false cf st l
        = (l.map fun s => Call.mk .condaCreate s true, st ++ l.map make_env_name)
  | [], st, _ => by simp [create_loop]
  | s :: rest, st, h => by
    have hs : cf s = false := h s (List.mem_cons_self s rest)
    have ih := create_loop_all_ok cf rest (st ++ [make_env_name s])
      (fun s' hs' => h s' (List.mem_cons_of_mem s hs'))
    simp [create_loop, hs, ih, List.append_assoc]

theorem create_loop_break (cf : String → Bool) :
    ∀ (l₁ : List String) (st : List String) (f : String) (l₂ : List String),
      (∀ s ∈ l₁, cf s = false) → cf f = true →
      (create_loop [] false cf st (l₁ ++ f :: l₂)).1
        = l₁.map (fun s => Call.mk .condaCreate s true) ++ [Call.mk .condaCreate f false]
  | [], st, f, l₂, _, hf => by simp [create_loop, hf]
  | s :: rest, st, f, l₂, h, hf => by
    have hs : cf s = false := h s (List.mem_cons_self s rest)
    have ih := create_loop_break cf rest (st ++ [make_env_name s]) f l₂
      (fun s' hs' => h s' (List.mem_cons_of_mem s hs')) hf
    simp [create_loop, hs, ih]

theorem remove_all (environments : List String) (rf : String → Bool) :
    ∀ (l : List String), (∀ s ∈ l, make_env_name s ∈ environments) →
      remove_environments environments rf l
        = l.map fun s => Call.mk .condaRemove s (!rf s)
  | [], _ => rfl
  | s :: rest, h => by
    have hs : make_env_name s ∈ environments := h s (List.mem_cons_self s rest)
    have ih := remove_all environments rf rest
      (fun s' hs' => h s' (List.mem_cons_of_mem s hs'))
    simp [remove_environments, hs, ih]

theorem install_all (environments : List String)
    (fp : String → Option (List String)) (instf impf : String → Bool) :
    ∀ (l : List String),
      (∀ s ∈ l, make_env_name s ∈ environments) →
      (∀ s ∈ l, (fp s).isSome) →
      (∀ s ∈ l, instf s = false) →
      (∀ s ∈ l, impf s = false) →
      install_environments environments fp instf impf l
        = l.flatMap fun s => [Call.mk .poetryInstall s true, Call.mk .warmImport s true]
  | [], _, _, _, _ => rfl
  | s :: rest, henv, hfp, hinst, himp => by
    have h1 : make_env_name s ∈ environments := henv s (List.mem_cons_self s rest)
    obtain ⟨p, hp⟩ := Option.isSome_iff_exists.mp (hfp s (List.mem_cons_self s rest))
    have h3 : instf s = false := hinst s (List.mem_cons_self s rest)
    have h4 : impf s = false := himp s (List.mem_cons_self s rest)
    have ih := install_all environments fp instf impf rest
      (fun s' hs' => henv s' (List.mem_cons_of_mem s hs'))
      (fun s' hs' => hfp s' (List.mem_cons_of_mem s hs'))
      (fun s' hs' => hinst s' (List.mem_cons_of_mem s hs'))
      (fun s' hs' => himp s' (List.mem_cons_of_mem s hs'))
    simp [install_environments, h1, hp, h3, h4, ih]

theorem install_break_continue (environments : List String)
    (fp : String → Option (List String)) (instf impf : String → Bool) :
    ∀ (l₁ : List String) (f : String) (l₂ : List String),
      (∀ s ∈ l₁ ++ f :: l₂, make_env_name s ∈ environments) →
      (∀ s ∈ l₁ ++ f :: l₂, (fp s).isSome) →
      (∀ s ∈ l₁ ++ l₂, instf s = false) → instf f = true →
      (∀ s ∈ l₁ ++ l₂, impf s = false) →
      install_environments environments fp instf impf (l₁ ++ f :: l₂)
        = (l₁.flatMap fun s => [Call.mk .poetryInstall s true, Call.mk .warmImport s true])
          ++ Call.mk .poetryInstall f false
            :: (l₂.flatMap fun s => [Call.mk .poetryInstall s true, Call.mk .warmImport s true])
  | [], f, l₂, henv, hfp, hinst, hf, himp => by
    have h1 : make_env_name f ∈ environments := henv f (by simp)
    obtain ⟨p, hp⟩ := Option.isSome_iff_exists.mp (hfp f (by simp))
    have htail := install_all environments fp instf impf l₂
      (fun s hs => henv s (by simp [hs])) (fun s hs => hfp s (by simp [hs]))
      (fun s hs => hinst s (by simp [hs])) (fun s hs => himp s (by simp [hs]))
    simp [install_environments, h1, hp, hf, htail]
  | s :: rest, f, l₂, henv, hfp, hinst, hf, himp => by
    have h1 : make_env_name s ∈ environments := henv s (by simp)
    obtain ⟨p, hp⟩ := Option.isSome_iff_exists.mp (hfp s (by simp))
    have h3 : instf s = false := hinst s (by simp)
    have h4 : impf s = false := himp s (by simp)
    have ih := install_break_continue environments fp instf impf rest f l₂
      (fun s' hs' => henv s' (by simp at hs' ⊢; tauto))
      (fun s' hs' => hfp s' (by simp at hs' ⊢; tauto))
      (fun s' hs' => hinst s' (by simp at hs' ⊢; tauto)) hf
      (fun s' hs' => himp s' (by simp at hs' ⊢; tauto))
    simp [install_environments, h1, hp, h3, h4, ih]

/-! ### Claims C1 and C3: batch error policy and idempotent create -/

/-- Claim C1: for any roster split as `l₁ ++ f :: l₂` where the external
manager fails exactly at `f`, the `create` batch (run while none of the
environments exist yet) issues successful create calls for the students of
`l₁` and one failing call for `f`, then stops — the students of `l₂` are
untouched; the `remove` and `install` batches (run while every student's
environment exists and every manifest is found) issue their external calls
for every student of the roster: the failure at `f` is recorded and the
batch continues with the students of `l₂`.  For a roster of 3 students
failing on the 2nd, `create` therefore processes only student 1 before
stopping while `remove`/`install` process students 1 and 3. -/
theorem batch_error_policy (l₁ l₂ : List String) (f : String)
    (cf rf instf impf : String → Bool) (fp : String → Option (List String))
    (h₁ : ∀ s ∈ l₁, cf s = false ∧ rf s = false ∧ instf s = false ∧ impf s = false)
    (h₂ : ∀ s ∈ l₂, cf s = false ∧ rf s = false ∧ instf s = false ∧ impf s = false)
    (hf : cf f = true ∧ rf f = true ∧ instf f = true)
    (hfp : ∀ s ∈ l₁ ++ f :: l₂, (fp s).isSome) :
    (create_environments false cf [] (l₁ ++ f :: l₂)).1
        = l₁.map (fun s => Call.mk .condaCreate s true) ++ [Call.mk .condaCreate f false]
    ∧ remove_environments ((l₁ ++ f :: l₂).map make_env_name) rf (l₁ ++ f :: l₂)
        = l₁.map (fun s => Call.mk .condaRemove s true)
          ++ Call.mk .condaRemove f false :: l₂.map (fun s => Call.mk .condaRemove s true)
    ∧ install_environments ((l₁ ++ f :: l₂).map make_env_name) fp instf impf (l₁ ++ f :: l₂)
        = (l₁.flatMap fun s => [Call.mk .poetryInstall s true, Call.mk .warmImport s true])
          ++ Call.mk .poetryInstall f false
            :: (l₂.flatMap fun s => [Call.mk .poetryInstall s true, Call.mk .warmImport s true]) := by
  have hmem : ∀ s ∈ l₁ ++ f :: l₂, make_env_name s ∈ (l₁ ++ f :: l₂).map make_env_name :=
    fun s hs => List.mem_map_of_mem _ hs
  refine ⟨?_, ?_, ?_⟩
  · exact create_loop_break cf l₁ [] f l₂ (fun s hs => (h₁ s hs).1) hf.1
  · rw [remove_all _ rf _ hmem, List.map_append, List.map_cons]
    congr 1
    · exact List.map_congr_left (fun s hs => by simp [(h₁ s hs).2.1])
    · congr 1
      · simp [hf.2.1]
      · exact List.map_congr_left (fun s hs => by simp [(h₂ s hs).2.1])
  · refine install_break_continue _ fp instf impf l₁ f l₂ hmem hfp ?_ hf.2.2 ?_
    · intro s hs
      rcases List.mem_append.mp hs with hs' | hs'
      · exact (h₁ s hs').2.2.1
      · exact (h₂ s hs').2.2.1
    · intro s hs
      rcases List.mem_append.mp hs with hs' | hs'
      · exact (h₁ s hs').2.2.2
      · exact (h₂ s hs').2.2.2

theorem batch_error_policy_witness :
    ((fun s : String => s == "bob") "bob" = true
      ∧ ∀ s ∈ (["alice"] ++ "bob" :: ["carol"] : List String),
          ((fun s : String => some ["code", s, "pyproject.toml"]) s).isSome)
    ∧ ((create_environments false (fun s => s == "bob") [] (["alice"] ++ "bob" :: ["carol"])).1
          = ["alice"].map (fun s => Call.mk .condaCreate s true) ++ [Call.mk .condaCreate "bob" false]
        ∧ remove_environments ((["alice"] ++ "bob" :: ["carol"]).map make_env_name)
            (fun s => s == "bob") (["alice"] ++ "bob" :: ["carol"])
          = ["alice"].map (fun s => Call.mk .condaRemove s true)
            ++ Call.mk .condaRemove "bob" false
              :: ["carol"].map (fun s => Call.mk .condaRemove s true)
        ∧ install_environments ((["alice"] ++ "bob" :: ["carol"]).map make_env_name)
            (fun s => some ["code", s, "pyproject.toml"])
            (fun s => s == "bob") (fun s => s == "bob") (["alice"] ++ "bob" :: ["carol"])
          = (["alice"].flatMap fun s => [Call.mk .poetryInstall s true, Call.mk .warmImport s true])
            ++ Call.mk .poetryInstall "bob" false
              :: (["carol"].flatMap fun s =>
                  [Call.mk .poetryInstall s true, Call.mk .warmImport s true])) :=
  ⟨⟨by decide, by decide⟩,
    batch_error_policy ["alice"] ["carol"] "bob"
      (fun s => s == "bob") (fun s => s == "bob") (fun s => s == "bob") (fun s => s == "bob")
      (fun s => some ["code", s, "pyproject.toml"])
      (by decide) (by decide) (by decide) (by decide)⟩

/-- Claim C3: create is idempotent.  Starting from a registry in which the
student's deterministically-named environment is absent and with a working
external manager, the first `create` invocation issues exactly one
external create call; a second invocation against the resulting registry
issues none, so the two invocations together issue exactly one call; and
in general `create` is a no-op whenever the environment already exists and
`force` is false. -/
theorem create_idempotent (s : String) (st : List String) (cf : String → Bool)
    (habsent : make_env_name s ∉ st) (hok : cf s = false) :
    (create_environments false cf st [s]).1 = [Call.mk .condaCreate s true]
    ∧ (create_environments false cf (create_environments false cf st [s]).2 [s]).1 = []
    ∧ ((create_environments false cf st [s]).1
        ++ (create_environments false cf (create_environments false cf st [s]).2 [s]).1).length = 1
    ∧ ∀ st2, make_env_name s ∈ st2 → create_environments false cf st2 [s] = ([], st2) := by
  have h1 : create_environments false cf st [s] = ([Call.mk .condaCreate s true], st ++ [make_env_name s]) := by
    simp [create_environments, create_loop, habsent, hok]
  have hnoop : ∀ st2, make_env_name s ∈ st2 → create_environments false cf st2 [s] = ([], st2) := by
    intro st2 hmem
    simp [create_environments, create_loop, hmem]
  refine ⟨by rw [h1], ?_, ?_, hnoop⟩
  · rw [h1]
    have := hnoop (st ++ [make_env_name s]) (by simp)
    rw [this]
  · rw [h1]
    have := hnoop (st ++ [make_env_name s]) (by simp)
    rw [this]
    rfl

theorem create_idempotent_witness :
    (make_env_name "alice" ∉ ([] : List String) ∧ (fun _ : String => false) "alice" = false)
    ∧ ((create_environments false (fun _ => false) [] ["alice"]).1
          = [Call.mk .condaCreate "alice" true]
        ∧ (create_environments false (fun _ => false)
            (create_environments false (fun _ => false) [] ["alice"]).2 ["alice"]).1 = []
        ∧ ((create_environments false (fun _ => false) [] ["alice"]).1
            ++ (create_environments false (fun _ => false)
                (create_environments false (fun _ => false) [] ["alice"]).2 ["alice"]).1).length = 1
        ∧ ∀ st2, make_env_name "alice" ∈ st2 →
            create_environments false (fun _ => false) st2 ["alice"] = ([], st2)) :=
  ⟨⟨by decide, rfl⟩,
    create_idempotent "alice" [] (fun _ => false) (by decide) rfl⟩

/-! ### Claims C4, C5, C10: unpack behaviour -/

/-- Claim C4: unpack is idempotent.  If a run of the unpack command over a
batch of archives completes normally, running the same batch again against
the resulting filesystem is a no-op: every archive's student directory
already exists, so every archive is skipped (not an error) and the
filesystem is returned unchanged. -/
theorem unpack_idempotent (code_dir : List String) (subs : List Zip)
    (fs fs' : FS) (h : uncompress_submissions code_dir subs fs = .ok fs') :
    uncompress_submissions code_dir subs fs' = .ok fs' := by
  unfold uncompress_submissions at h ⊢
  have hcd : code_dir ∈ fs'.dirs :=
    unpack_loop_ok_mem code_dir subs _ fs' h code_dir
      (mkdir_mem_self fs code_dir)
  rw [mkdir_of_mem fs' code_dir hcd]
  exact unpack_loop_all_skipped code_dir subs fs'
    (unpack_loop_covers code_dir subs _ fs' h)

theorem unpack_idempotent_witness :
    (uncompress_submissions ["code"] [Zip.mk "alice_a.zip" ["m.py"]] (FS.mk [] [])
        = .ok (FS.mk [["code"], ["code", "alice"]] [["code", "alice", "m.py"]]))
    ∧ uncompress_submissions ["code"] [Zip.mk "alice_a.zip" ["m.py"]]
        (FS.mk [["code"], ["code", "alice"]] [["code", "alice", "m.py"]])
      = .ok (FS.mk [["code"], ["code", "alice"]] [["code", "alice", "m.py"]]) :=
  ⟨by decide,
    unpack_idempotent ["code"] [Zip.mk "alice_a.zip" ["m.py"]] (FS.mk [] []) _ (by decide)⟩

/-- Counterexample to claim C5: with submissions
`[1234.zip, bob_b.zip]`, the filename `1234.zip` does not match
`RE_STUDENT_NAME`, and instead of skipping it and continuing,
`uncompress_submissions` crashes there (`re.match` returns `None` and
`.group("name")` raises `AttributeError`): the run produces no completed
result and the later archive `bob_b.zip` is never extracted (`code/bob`
is not a directory of the final state). -/
theorem uncompress_skip_counterexample :
    uncompress_submissions ["code"]
        [Zip.mk "1234.zip" ["x.py"], Zip.mk "bob_b.zip" ["b.py"]] (FS.mk [] [])
      = .crashed (FS.mk [["code"]] [])
    ∧ ["code", "bob"] ∉
        (fsOf (uncompress_submissions ["code"]
          [Zip.mk "1234.zip" ["x.py"], Zip.mk "bob_b.zip" ["b.py"]] (FS.mk [] []))).dirs := by
  exact ⟨by decide, by decide⟩

/-- Claim C5 as amended: during unpack, an archive whose filename does not
match the student-token pattern is not skipped — the batch aborts there
with the `AttributeError` raised by `.group("name")` on the failed match:
the archives before it have been processed (the crash state is exactly the
state after running the loop on them alone) and the archives after it are
untouched. -/
theorem uncompress_aborts_on_bad_name (code_dir : List String) (fs : FS)
    (l₁ l₂ : List Zip) (bad : Zip)
    (h₁ : ∀ z ∈ l₁, (re_student_name z.name).isSome)
    (hbad : re_student_name bad.name = none) :
    ∃ fsc, unpack_loop code_dir (mkdir_exist_ok fs code_dir) l₁ = .ok fsc
      ∧ uncompress_submissions code_dir (l₁ ++ bad :: l₂) fs = .crashed fsc := by
  obtain ⟨fsc, hok, hcrash⟩ :=
    unpack_crash_at code_dir l₁ (mkdir_exist_ok fs code_dir) l₂ bad h₁ hbad
  exact ⟨fsc, hok, hcrash⟩

theorem uncompress_aborts_on_bad_name_witness :
    ((∀ z ∈ [Zip.mk "alice_a.zip" ["a.py"]], (re_student_name z.name).isSome)
      ∧ re_student_name (Zip.mk "1234.zip" ["x.py"]).name = none)
    ∧ ∃ fsc,
        unpack_loop ["code"] (mkdir_exist_ok (FS.mk [] []) ["code"])
            [Zip.mk "alice_a.zip" ["a.py"]] = .ok fsc
        ∧ uncompress_submissions ["code"]
            ([Zip.mk "alice_a.zip" ["a.py"]]
              ++ Zip.mk "1234.zip" ["x.py"] :: [Zip.mk "bob_b.zip" ["b.py"]])
            (FS.mk [] []) = .crashed fsc :=
  ⟨⟨by decide, by decide⟩,
    uncompress_aborts_on_bad_name ["code"] (FS.mk [] [])
      [Zip.mk "alice_a.zip" ["a.py"]] [Zip.mk "bob_b.zip" ["b.py"]]
      (Zip.mk "1234.zip" ["x.py"]) (by decide) (by decide)⟩

/-- Claim C10: when the code directory does not exist, roster resolution
(`get_students`) fails with `FileNotFoundError` (from `Path.iterdir`),
whereas the unpack command first creates the code directory with
`mkdir(exist_ok=True)`: whatever the batch of archives and whether or not
the loop later crashes, the code directory is present in the resulting
filesystem state. -/
theorem unpack_creates_code_dir (fs : FS) (code_dir : List String)
    (subs : List Zip) (h : code_dir ∉ fs.dirs) :
    get_students fs code_dir = .error .fileNotFound
    ∧ code_dir ∈ (fsOf (uncompress_submissions code_dir subs fs)).dirs := by
  constructor
  · unfold get_students
    exact if_neg h
  · exact unpack_loop_mem_dirs code_dir subs (mkdir_exist_ok fs code_dir)
      code_dir (mkdir_mem_self fs code_dir)

theorem unpack_creates_code_dir_witness :
    (["code"] ∉ (FS.mk [] [] : FS).dirs)
    ∧ (get_students (FS.mk [] []) ["code"] = .error .fileNotFound
      ∧ ["code"] ∈ (fsOf (uncompress_submissions ["code"]
          [Zip.mk "alice_a.zip" ["a.py"]] (FS.mk [] []))).dirs) :=
  ⟨by decide,
    unpack_creates_code_dir (FS.mk [] []) ["code"] [Zip.mk "alice_a.zip" ["a.py"]] (by decide)⟩

/-! ### Claims C9 and C8: empty-roster start, environment listing -/

/-- Claim C9: the `start` operation is only defined for a non-empty
roster.  On an empty roster, `students[0]` raises an uncaught `IndexError`
(modelled by the `indexError` constructor, distinct from any dedicated
session error), and no (path, environment name) pair is produced. -/
theorem start_grading_empty_roster (fp : String → Option (List String)) :
    start_grading [] fp = .error .indexError
    ∧ ∀ pr, start_grading [] fp ≠ .ok pr :=
  ⟨rfl, fun pr h => by simp [start_grading] at h⟩

/-- Claim C8: every environment name printed by the `env list` command
belongs to the set reported by the external manager and matches the naming
scheme (it is `make_env_name s` — that is, prefix `env_` — for some roster
student `s`); unrelated environment names are therefore never listed. -/
theorem list_environments_filtered (students : List String)
    (env_paths : List (List String)) :
    ∀ name ∈ list_environments students (get_all_environments env_paths),
      name ∈ get_all_environments env_paths
      ∧ ∃ s ∈ students, name = make_env_name s := by
  intro name hname
  unfold list_environments at hname
  obtain ⟨s, hs, hsome⟩ := List.mem_filterMap.mp hname
  by_cases hc : make_env_name s ∈ get_all_environments env_paths
  · rw [if_pos hc, Option.some.injEq] at hsome
    exact hsome ▸ ⟨hc, s, hs, rfl⟩
  · rw [if_neg hc] at hsome
    cases hsome

theorem list_environments_filtered_witness :
    ("env_alice" ∈ list_environments ["alice", "zz"]
        (get_all_environments
          [["c", "envs", "env_alice"], ["c", "envs", "base"], ["x", "other", "env_zz"]]))
    ∧ ("env_alice" ∈ get_all_environments
          [["c", "envs", "env_alice"], ["c", "envs", "base"], ["x", "other", "env_zz"]]
      ∧ ∃ s ∈ (["alice", "zz"] : List String), "env_alice" = make_env_name s) :=
  ⟨by decide,
    list_environments_filtered ["alice", "zz"]
      [["c", "envs", "env_alice"], ["c", "envs", "base"], ["x", "other", "env_zz"]]
      "env_alice" (by decide)⟩

/-! ### Claim C7: deterministic sorted roster -/

/-- Claim C7: whenever roster resolution succeeds, its output is sorted
lexicographically, contains exactly the names of the immediate
subdirectories of the code directory, and is deterministic: any second
successful resolution of the same filesystem state yields the same
list. -/
theorem get_students_sorted (fs : FS) (code_dir : List String)
    (l : List String) (h : get_students fs code_dir = .ok l) :
    l.Sorted (fun a b : String => a ≤ b)
    ∧ (∀ n, n ∈ l ↔ code_dir ++ [n] ∈ fs.dirs)
    ∧ ∀ l', get_students fs code_dir = .ok l' → l' = l := by
  by_cases hcd : code_dir ∈ fs.dirs
  · unfold get_students at h
    rw [if_pos hcd, Except.ok.injEq] at h
    subst h
    refine ⟨List.sorted_insertionSort _ _, ?_, ?_⟩
    · intro n
      rw [(List.perm_insertionSort _ _).mem_iff]
      constructor
      · intro hn
        obtain ⟨d, hd, hget⟩ := List.mem_map.mp hn
        obtain ⟨hdm, hcond⟩ := List.mem_filter.mp hd
        rw [Bool.and_eq_true, beq_iff_eq] at hcond
        obtain ⟨hlen, hpre⟩ := hcond
        obtain ⟨t, rfl⟩ := (isPrefixOf_iff _ _).mp hpre
        have hlt : t.length = 1 := by
          rw [List.length_append] at hlen
          omega
        obtain ⟨x, rfl⟩ := List.length_eq_one.mp hlt
        rw [getD_append_singleton] at hget
        exact hget ▸ hdm
      · intro hn
        rw [List.mem_map]
        refine ⟨code_dir ++ [n], ?_, getD_append_singleton code_dir n⟩
        rw [List.mem_filter, Bool.and_eq_true, beq_iff_eq]
        exact ⟨hn, by simp, (isPrefixOf_iff _ _).mpr ⟨[n], rfl⟩⟩
    · intro l' h'
      unfold get_students at h'
      rw [if_pos hcd, Except.ok.injEq] at h'
      exact h'.symm
  · unfold get_students at h
    rw [if_neg hcd] at h
    cases h

theorem get_students_sorted_witness :
    (get_students (FS.mk [["code"], ["code", "bob"], ["code", "alice"], ["other"]]
        [["code", "notes.txt"]]) ["code"] = .ok ["alice", "bob"])
    ∧ ((["alice", "bob"] : List String).Sorted (fun a b : String => a ≤ b)
      ∧ (∀ n, n ∈ (["alice", "bob"] : List String) ↔
          ["code"] ++ [n] ∈ (FS.mk [["code"], ["code", "bob"], ["code", "alice"], ["other"]]
            [["code", "notes.txt"]] : FS).dirs)
      ∧ ∀ l', get_students (FS.mk [["code"], ["code", "bob"], ["code", "alice"], ["other"]]
          [["code", "notes.txt"]]) ["code"] = .ok l' → l' = ["alice", "bob"]) :=
  ⟨by simp [get_students, List.insertionSort, List.orderedInsert]; decide,
    get_students_sorted _ ["code"] ["alice", "bob"]
      (by simp [get_students, List.insertionSort, List.orderedInsert]; decide)⟩

/-! ### Claims C6 and C2: session navigation -/

/-- Claim C6: whenever the working directory is not strictly beneath the
code directory, or the student identifier recovered from the first path
segment below the code directory is not in the roster, the `next`
operation fails with the not-in-session error and produces no
(path, environment name) pair. -/
theorem grade_next_not_in_session (code_dir cwd : List String)
    (students : List String) (fp : String → Option (List String))
    (h : ¬ ∃ s rest, cwd = code_dir ++ s :: rest ∧ s ∈ students) :
    grade_next_student code_dir cwd students fp = .error .notInSession := by
  unfold grade_next_student
  by_cases hpre : code_dir.isPrefixOf cwd = true
  · obtain ⟨t, rfl⟩ := (isPrefixOf_iff _ _).mp hpre
    rw [if_pos hpre, List.drop_left]
    cases t with
    | nil => rfl
    | cons s rest =>
      have hs : s ∉ students := fun hmem => h ⟨s, rest, rfl, hmem⟩
      rw [List.head?_cons]
      show (match pyIndex s students with
        | none => Except.error NavError.notInSession
        | some idx =>
          let next_student := students.getD ((idx + 1) % students.length) ""
          match fp next_student with
          | none => Except.error NavError.attributeError
          | some project_path =>
              Except.ok (project_path.dropLast, make_env_name next_student)) = _
      rw [pyIndex_eq_none s students hs]
  · rw [if_neg hpre]

theorem grade_next_not_in_session_witness :
    (¬ ∃ s rest, (["home", "elsewhere"] : List String)
        = ["home", "code"] ++ s :: rest ∧ s ∈ (["alice", "bob"] : List String))
    ∧ grade_next_student ["home", "code"] ["home", "elsewhere"] ["alice", "bob"]
        (fun s => some ["home", "code", s, "pyproject.toml"]) = .error .notInSession :=
  ⟨by rintro ⟨s, rest, heq, -⟩; simp at heq,
    grade_next_not_in_session ["home", "code"] ["home", "elsewhere"] ["alice", "bob"]
      (fun s => some ["home", "code", s, "pyproject.toml"])
      (by rintro ⟨s, rest, heq, -⟩; simp at heq)⟩

theorem range_map_mod_perm (N : Nat) (h : 0 < N) :
    List.Perm ((List.range N).map fun k => (k + 1) % N) (List.range N) := by
  obtain ⟨M, rfl⟩ : ∃ M, N = M + 1 := ⟨N - 1, by omega⟩
  have hmap : (List.range (M + 1)).map (fun k => (k + 1) % (M + 1))
      = (List.range M).map (fun k => k + 1) ++ [0] := by
    rw [List.range_succ, List.map_append]
    congr 1
    · exact List.map_congr_left fun a ha => Nat.mod_eq_of_lt (by
        have := List.mem_range.mp ha; omega)
    · simp
  rw [hmap]
  refine (List.perm_append_singleton 0 _).trans ?_
  rw [List.range_succ_eq_map]

/-- Claim C2: from the directory of the roster entry at index `i` (for a
duplicate-free roster whose manifests are all present), `next` returns the
project path and environment name of the roster entry at
`(i + 1) mod len(roster)`; the index map `i ↦ (i + 1) mod N` returns to
index 0 after exactly `N` steps, visiting every index exactly once (its
first `N` values form a permutation of `0, …, N - 1`). -/
theorem grade_next_cyclic (code_dir rest roster : List String)
    (fp : String → Option (List String)) (i : Nat) (hi : i < roster.length)
    (hnd : roster.Nodup) (hfp : ∀ s ∈ roster, (fp s).isSome) :
    grade_next_student code_dir (code_dir ++ roster.getD i "" :: rest) roster fp
      = .ok (((fp (roster.getD ((i + 1) % roster.length) "")).getD []).dropLast,
             make_env_name (roster.getD ((i + 1) % roster.length) ""))
    ∧ (fun j => (j + 1) % roster.length)^[roster.length] 0 = 0
    ∧ List.Perm ((List.range roster.length).map fun k => (k + 1) % roster.length)
        (List.range roster.length) := by
  have hpos : 0 < roster.length := Nat.lt_of_le_of_lt (Nat.zero_le i) hi
  refine ⟨?_, ?_, range_map_mod_perm roster.length hpos⟩
  · have hpre : code_dir.isPrefixOf (code_dir ++ roster.getD i "" :: rest) = true :=
      (isPrefixOf_iff _ _).mpr ⟨_, rfl⟩
    have hmod : (i + 1) % roster.length < roster.length := Nat.mod_lt _ hpos
    obtain ⟨p, hp⟩ := Option.isSome_iff_exists.mp (hfp _ (getD_mem roster _ hmod))
    unfold grade_next_student
    rw [if_pos hpre, List.drop_left, List.head?_cons]
    show (match pyIndex (roster.getD i "") roster with
      | none => Except.error NavError.notInSession
      | some idx =>
        let next_student := roster.getD ((idx + 1) % roster.length) ""
        match fp next_student with
        | none => Except.error NavError.attributeError
        | some project_path =>
            Except.ok (project_path.dropLast, make_env_name next_student)) = _
    rw [pyIndex_getD roster i hi hnd]
    show (match fp (roster.getD ((i + 1) % roster.length) "") with
      | none => Except.error NavError.attributeError
      | some project_path =>
          Except.ok (project_path.dropLast,
            make_env_name (roster.getD ((i + 1) % roster.length) ""))) = _
    rw [hp]
    rfl
  · have hgen : ∀ k, (fun j => (j + 1) % roster.length)^[k] 0 = k % roster.length := by
      intro k
      induction k with
      | zero => simp
      | succ k ih =>
        rw [Function.iterate_succ_apply', ih]
        exact Nat.mod_add_mod k roster.length 1
    rw [hgen]
    exact Nat.mod_self _

theorem grade_next_cyclic_witness :
    (1 < (["alice", "bob", "carol"] : List String).length
      ∧ (["alice", "bob", "carol"] : List String).Nodup
      ∧ ∀ s ∈ (["alice", "bob", "carol"] : List String),
          ((fun s : String => some ["home", "code", s, "pyproject.toml"]) s).isSome)
    ∧ (grade_next_student ["home", "code"]
          (["home", "code"] ++ (["alice", "bob", "carol"] : List String).getD 1 "" :: ["proj"])
          ["alice", "bob", "carol"] (fun s => some ["home", "code", s, "pyproject.toml"])
        = .ok ((((fun s : String => some ["home", "code", s, "pyproject.toml"])
              ((["alice", "bob", "carol"] : List String).getD
                ((1 + 1) % (["alice", "bob", "carol"] : List String).length) "")).getD []).dropLast,
            make_env_name ((["alice", "bob", "carol"] : List String).getD
              ((1 + 1) % (["alice", "bob", "carol"] : List String).length) ""))
      ∧ (fun j => (j + 1) % (["alice", "bob", "carol"] : List String).length)^[
          (["alice", "bob", "carol"] : List String).length] 0 = 0
      ∧ List.Perm ((List.range (["alice", "bob", "carol"] : List String).length).map
            fun k => (k + 1) % (["alice", "bob", "carol"] : List String).length)
          (List.range (["alice", "bob", "carol"] : List String).length)) :=
  ⟨⟨by decide, by decide, by decide⟩,
    grade_next_cyclic ["home", "code"] ["proj"] ["alice", "bob", "carol"]
      (fun s => some ["home", "code", s, "pyproject.toml"]) 1
      (by decide) (by decide) (by decide)⟩
